import Mathlib

/-!
Verification development for the YADRA research-streaming service.

Python strings are modelled as `List Char` (the ASCII fragment of Python's
case mapping; every character the verified claims depend on is ASCII).
Each definition's doc comment names the Python source function it embeds.
-/

namespace YADRA

/-! ## Definitions -/

/-- Python `str.strip()`: whitespace stripped from both ends. -/
def pyStrip (l : List Char) : List Char :=
  ((l.dropWhile Char.isWhitespace).reverse.dropWhile Char.isWhitespace).reverse

/-- Python `str.rstrip(x)` for a single strip character `x`. -/
def rstripChar (x : Char) (l : List Char) : List Char :=
  (l.reverse.dropWhile (fun c => c = x)).reverse

/-- Python `str.strip(x)` for a single strip character `x`. -/
def stripChar (x : Char) (l : List Char) : List Char :=
  rstripChar x (l.dropWhile (fun c => c = x))

/-- Python `str.lower()` (ASCII fragment; `Char.toLower` is exactly the ASCII
case map). -/
def pyLower (l : List Char) : List Char := l.map Char.toLower

/-- Python `str.upper()` (ASCII fragment). -/
def pyUpper (l : List Char) : List Char := l.map Char.toUpper

/-- Python `"-".join(parts)`. -/
def joinHyphen : List (List Char) → List Char
  | [] => []
  | [p] => p
  | p :: rest => p ++ '-' :: joinHyphen rest

/-- Collapse every run of hyphens to a single one: Python `re.sub(r'-+', '-',
s)`. -/
def mergeHyphens : List Char → List Char
  | [] => []
  | [c] => [c]
  | a :: b :: rest =>
    if a = '-' ∧ b = '-' then mergeHyphens (b :: rest)
    else a :: mergeHyphens (b :: rest)

/-- Python `'--' in s`: the string contains two consecutive hyphens. -/
def hasDoubleHyphen : List Char → Bool
  | a :: b :: rest => (a = '-' && b = '-') || hasDoubleHyphen (b :: rest)
  | _ => false

/-- Membership in the regex class `[a-z0-9-]`. -/
def lowerAlnumHyphen (c : Char) : Bool := c.isLower || c.isDigit || c = '-'

/-- Membership in the regex class `[a-zA-Z0-9-]`. -/
def alnumHyphen (c : Char) : Bool := c.isAlphanum || c = '-'

/-- The relation "not two hyphens in a row", used through `List.Chain'`. -/
def noDoubleRel (a b : Char) : Prop := ¬(a = '-' ∧ b = '-')

/-- The alphabet of `URLParamGenerator.generate_random_suffix`:
`string.ascii_letters + string.digits` with `0`, `O`, `l`, `I` removed. -/
def safeChars : List Char :=
  ("abcdefghijkmnopqrstuvwxyzABCDEFGHJKLMNPQRSTUVWXYZ123456789").toList

/-- Characterises the strings `generate_random_suffix(8)` can return: eight
characters drawn from `safeChars`. -/
def SuffixOk (s : List Char) : Prop := s.length = 8 ∧ ∀ c ∈ s, c ∈ safeChars

instance decidableSuffixOk (s : List Char) : Decidable (SuffixOk s) :=
  inferInstanceAs (Decidable (s.length = 8 ∧ ∀ c ∈ s, c ∈ safeChars))

/-- The per-syllable cleaning in `chinese_to_pinyin`: `re.sub(r'[^a-zA-Z]', '',
py)`. -/
def cleanPy (py : List Char) : List Char := py.filter (fun c => c.isAlpha)

/-- `URLParamGenerator.chinese_to_pinyin`, with the raw output of the external
`lazy_pinyin` library supplied as the argument `pys`: clean each syllable,
drop empties, lower-case, and join with hyphens. -/
def chinese_to_pinyin (pys : List (List Char)) : List Char :=
  joinHyphen (((pys.map cleanPy).filter (fun l => l ≠ [])).map pyLower)

/-- The test `re.search(r'[\u4e00-\u9fff]', keyword)` in `generate_url_param`. -/
def containsCJK (w : List Char) : Bool :=
  w.any (fun c => 0x4e00 ≤ c.toNat && c.toNat ≤ 0x9fff)

/-- The non-Chinese branch of keyword processing in `generate_url_param`:
`re.sub(r'[^a-zA-Z0-9]', '', keyword.lower())`. -/
def cleanEnglish (w : List Char) : List Char := (pyLower w).filter (fun c => c.isAlphanum)

/-- Step 2 of `generate_url_param` (keyword processing).  `pin` supplies the
external `lazy_pinyin` output for a Chinese keyword. -/
def processKeywords (pin : List Char → List (List Char))
    (kws : List (List Char)) : List (List Char) :=
  kws.flatMap (fun kw =>
    if containsCJK kw then
      let p := chinese_to_pinyin (pin kw)
      if p ≠ [] then [p] else []
    else
      let c := cleanEnglish kw
      if c ≠ [] then [c] else [])

/-- The fallback slug `f"question-{self.generate_random_suffix()}"`. -/
def questionFallback (sfx : List Char) : List Char := ("question-").toList ++ sfx

/-- Step 3 of `generate_url_param`: `keywords_part =
"-".join(processed_keywords)` with the `"question"` fallback for an empty
list. -/
def keywordsPart (processed : List (List Char)) : List Char :=
  if processed = [] then ("question").toList else joinHyphen processed

/-- Step 4 of `generate_url_param`: truncate `keywords_part` to `max_length -
10` and right-strip hyphens, only when it is too long. -/
def truncatedKeywordsPart (maxLength : Nat) (kp0 : List Char) : List Char :=
  if kp0.length > maxLength - 10 then rstripChar '-' (kp0.take (maxLength - 10)) else kp0

/-- Steps 6-7 of `generate_url_param`: append the random suffix, merge hyphen
runs (`re.sub(r'-+', '-', ...)`) and strip leading/trailing hyphens. -/
def cleanedParam (kp sfx : List Char) : List Char :=
  stripChar '-' (mergeHyphens (kp ++ '-' :: sfx))

/-- The final length/emptiness checks of `generate_url_param`. -/
def finalizeParam (maxLength : Nat) (sfx0 cleaned : List Char) : List Char :=
  if cleaned = [] ∨ cleaned.length < 5 then questionFallback sfx0
  else if cleaned.length > maxLength then rstripChar '-' (cleaned.take maxLength)
  else cleaned

/-- `URLParamGenerator.generate_url_param`.  Inputs that come from outside the
function are parameters: `keywords` is the result of `extract_keywords`
(external `jieba` tokenizer), `pin` is the external `lazy_pinyin`, `sfx` is
the random suffix drawn at step 5 and `sfx0` the suffix drawn by the
fallback paths.  The source's `max_length` parameter (default 50) is
explicit. -/
def generate_url_param (question : List Char) (keywords : List (List Char))
    (pin : List Char → List (List Char)) (sfx sfx0 : List Char)
    (maxLength : Nat) : List Char :=
  if question = [] ∨ pyStrip question = [] then questionFallback sfx0
  else if keywords = [] then questionFallback sfx0
  else
    finalizeParam maxLength sfx0
      (cleanedParam
        (truncatedKeywordsPart maxLength (keywordsPart (processKeywords pin keywords)))
        sfx)

/-- `URLParamGenerator.validate_url_param`. -/
def validate_url_param (l : List Char) : Bool :=
  if l = [] then false
  else if l.length < 5 ∨ l.length > 100 then false
  else if ¬ l.all alnumHyphen then false
  else if l.head? = some '-' ∨ l.getLast? = some '-' then false
  else if hasDoubleHyphen l then false
  else true

/-- The well-formedness facts shared by every slug the generator returns. -/
def GoodSlug (l : List Char) : Prop :=
  5 ≤ l.length ∧ l.length ≤ 50 ∧ (∀ c ∈ l, alnumHyphen c = true) ∧
  (∀ c, l.head? = some c → c ≠ '-') ∧ (∀ c, l.getLast? = some c → c ≠ '-') ∧
  hasDoubleHyphen l = false

/-- One `{text, value}` option offered with an interrupt. -/
structure InterruptOption where
  text : String
  value : String
deriving DecidableEq

/-- The canonical wire events emitted by the stream service.  Payload fields are
restricted to what the verified claims depend on; the timestamp, id and
token-count fields of the source dataclasses are omitted. -/
inductive WireEvent where
  | navigation
  | metadata (executionType : String)
  | reaskEvent (originalInput : String)
  | interrupt (message : String) (options : List InterruptOption)
  | nodeStart (name : String)
  | nodeComplete (name : String)
  | messageChunk (chunkType : String) (agentName : String)
  | streamChunk
  | toolCalls
  | toolCallChunks
  | toolCallResult
  | planGenerated
  | searchResults
  | artifact
  | progress (currentNode : String) (completed : List String) (remaining : List String)
      (description : String)
  | complete (finalStatus : String)
  | error (code : String)
deriving DecidableEq

/-- The SSE `event:` field string for each wire event (`SSEEventType` values).
Both `messageChunk` (a `MessageChunkEvent`) and `streamChunk` (a raw token
message forwarded from the engine's `messages` stream mode) are sent with
the event type `message_chunk`. -/
def etype : WireEvent → String
  | .navigation => "navigation"
  | .metadata _ => "metadata"
  | .reaskEvent _ => "reask"
  | .interrupt _ _ => "interrupt"
  | .nodeStart _ => "node_start"
  | .nodeComplete _ => "node_complete"
  | .messageChunk _ _ => "message_chunk"
  | .streamChunk => "message_chunk"
  | .toolCalls => "tool_calls"
  | .toolCallChunks => "tool_call_chunks"
  | .toolCallResult => "tool_call_result"
  | .planGenerated => "plan_generated"
  | .searchResults => "search_results"
  | .artifact => "artifact"
  | .progress _ _ _ _ => "progress"
  | .complete _ => "complete"
  | .error _ => "error"

/-- The payload of a LangGraph `__interrupt__` signal, as discriminated by
`_process_langgraph_stream`: a `("reask", original_input)` tuple, a dict
containing an `options` key (with an optional `message`), or anything else
(rendered with `str`). -/
inductive InterruptValue where
  | reaskTuple (originalInput : String)
  | withOptions (message : Option String) (options : List InterruptOption)
  | plain (rendered : String)
deriving DecidableEq

/-- The fields of one node's output dict that `_process_langgraph_stream`
inspects.  `msgContent` is `messages[-1].content` when the `messages` key
holds a non-empty list, `none` otherwise. -/
structure NodeOutput where
  isDict : Bool
  msgContent : Option String
  hasPlan : Bool
  hasBackground : Bool
  hasFinalReport : Bool
deriving DecidableEq

/-- Classification of a `messages` stream-mode tuple by the adapter:
`ToolMessage`, `AIMessageChunk` with `tool_calls`, with only
`tool_call_chunks`, a plain `AIMessageChunk`/`BaseMessage`, or not a
`BaseMessage` at all (skipped). -/
inductive MsgKind where
  | toolMessage
  | aiToolCalls
  | aiToolCallChunks
  | aiPlain
  | notBaseMessage
deriving DecidableEq

/-- One raw event yielded by `graph.astream(..., stream_mode=["messages",
"updates"], subgraphs=True)`: a dict containing `__interrupt__`, a dict of
node updates, or a `messages`-mode tuple. -/
inductive EngineEvent where
  | interruptSig (v : InterruptValue)
  | updates (items : List (String × NodeOutput))
  | message (k : MsgKind)
deriving DecidableEq

/-- The fallback option list of `_process_langgraph_stream` for an interrupt
value that carries no explicit options (lines 475-480 of
`research_stream_api.py`). -/
def defaultInterruptOptions : List InterruptOption :=
  [⟨"开始研究", "accepted"⟩, ⟨"编辑计划", "edit_plan"⟩,
   ⟨"立即生成报告", "skip_research"⟩, ⟨"重新提问", "reask"⟩]

/-- Translation of a suspend signal into a wire event
(`_process_langgraph_stream`, lines 436-494). -/
def translateInterrupt : InterruptValue → WireEvent
  | .reaskTuple orig => .reaskEvent orig
  | .withOptions msg opts => .interrupt (msg.getD "Please Review the Plan.") opts
  | .plain s => .interrupt s defaultInterruptOptions

/-- `ResearchStreamService._determine_chunk_type`. -/
def determineChunkType (nodeName : String) : String :=
  if nodeName = "coordinator" then "planning"
  else if nodeName = "planner" then "planning"
  else if nodeName = "background_investigator" then "research"
  else if nodeName = "researcher" then "research"
  else if nodeName = "coder" then "analysis"
  else if nodeName = "reporter" then "conclusion"
  else "research"

/-- The node list in `ResearchStreamService._get_remaining_nodes`. -/
def allNodes : List String :=
  ["coordinator", "background_investigator", "planner", "researcher", "reporter"]

/-- `ResearchStreamService._get_remaining_nodes`. -/
def getRemainingNodes (current : String) (completed : List String) : List String :=
  let idx := (allNodes.findIdx? (fun n => n = current)).getD 0
  (allNodes.drop (idx + 1)).filter (fun n => ! completed.contains n)

/-- `ResearchStreamService._get_node_description`. -/
def getNodeDescription (n : String) : String :=
  if n = "coordinator" then "正在协调研究任务..."
  else if n = "background_investigator" then "正在进行背景调研..."
  else if n = "planner" then "正在制定研究计划..."
  else if n = "researcher" then "正在执行深度研究..."
  else if n = "coder" then "正在处理数据分析..."
  else if n = "reporter" then "正在生成最终报告..."
  else "正在执行" ++ n ++ "..."

/-- Processing of one `(node_name, node_output)` entry of an updates dict
(`_process_langgraph_stream`, lines 501-793).  The state is `(current_node,
completed_nodes)`.  The fire-and-forget database writes (`save_message`,
`save_artifact`) emit no wire events and are elided. -/
def processNodeItem (st : String × List String) (item : String × NodeOutput) :
    (String × List String) × List WireEvent :=
  let currentNode := st.1
  let completed := st.2
  let name := item.1
  let out := item.2
  if name = "__start__" then (st, [])
  else
    let boundary : List WireEvent × String × List String :=
      if name ≠ currentNode then
        if currentNode ≠ "" ∧ currentNode ≠ "coordinator" then
          ([WireEvent.nodeComplete currentNode, WireEvent.nodeStart name], name,
            completed ++ [currentNode])
        else
          ([WireEvent.nodeStart name], name, completed)
      else ([], currentNode, completed)
    let cur := boundary.2.1
    let comp := boundary.2.2
    let contentEvents : List WireEvent :=
      if out.isDict then
        (match out.msgContent with
          | some content =>
            if content ≠ "" then [WireEvent.messageChunk (determineChunkType cur) name]
            else []
          | none => []) ++
        (if out.hasPlan then [WireEvent.planGenerated] else []) ++
        (if out.hasBackground then [WireEvent.searchResults] else []) ++
        (if out.hasFinalReport then [WireEvent.artifact] else [])
      else []
    ((cur, comp),
      boundary.1 ++ contentEvents ++
        [WireEvent.progress cur comp (getRemainingNodes cur comp) (getNodeDescription cur)])

/-- Processing of a whole updates dict: fold `processNodeItem` over its entries
in order. -/
def processUpdates (st : String × List String) :
    List (String × NodeOutput) → (String × List String) × List WireEvent
  | [] => (st, [])
  | item :: rest =>
    let r1 := processNodeItem st item
    let r2 := processUpdates r1.1 rest
    (r2.1, r1.2 ++ r2.2)

/-- Processing of one `messages` stream-mode tuple (`_process_langgraph_stream`,
lines 795-867). -/
def processMessage : MsgKind → List WireEvent
  | .toolMessage => [.toolCallResult]
  | .aiToolCalls => [.toolCalls]
  | .aiToolCallChunks => [.toolCallChunks]
  | .aiPlain => [.streamChunk]
  | .notBaseMessage => []

/-- The durable thread state returned by `graph.aget_state`: for each pending
task whether its `interrupts` attribute is non-empty, and the `next` node
tuple. -/
structure StateSnapshot where
  taskInterrupts : List Bool
  next : List String
deriving DecidableEq

/-- The interrupt detection over `current_state.tasks`
(`_process_langgraph_stream`, lines 881-891). -/
def hasInterrupt (s : StateSnapshot) : Bool := s.taskInterrupts.any id

/-- The post-stream completion check (`_process_langgraph_stream`, lines
875-939).  The outer `Option` is `none` when `aget_state` itself raised (the
exception is caught and no event is emitted); the inner `Option` is `none`
when the returned state is falsy. -/
def completionCheck : Option (Option StateSnapshot) → List WireEvent
  | none => []
  | some none => []
  | some (some s) =>
    if hasInterrupt s = false ∧ s.next = [] then [WireEvent.complete "completed"] else []

/-- The event loop of `_process_langgraph_stream` after the metadata event.
`crash` models an exception escaping the loop after the listed events were
consumed (caught at line 941, producing a single error event); `stateResult`
is the outcome of the post-stream `aget_state` call.  An `__interrupt__`
event emits its translation and returns at once (line 498). -/
def processEvents (st : String × List String) (crash : Bool)
    (stateResult : Option (Option StateSnapshot)) :
    List EngineEvent → List WireEvent
  | [] =>
    if crash then [WireEvent.error "LANGGRAPH_EXECUTION_ERROR"]
    else completionCheck stateResult
  | e :: rest =>
    match e with
    | .interruptSig v => [translateInterrupt v]
    | .updates items =>
      let r := processUpdates st items
      r.2 ++ processEvents r.1 crash stateResult rest
    | .message k => processMessage k ++ processEvents st crash stateResult rest

/-- `ResearchStreamService._process_langgraph_stream`: a metadata event first,
then the translated engine events. -/
def processStream (executionType : String) (events : List EngineEvent) (crash : Bool)
    (stateResult : Option (Option StateSnapshot)) : List WireEvent :=
  WireEvent.metadata executionType :: processEvents ("", []) crash stateResult events

/-- The input handed to `graph.astream` for an invocation: either a
`Command(resume=...)` or a fresh user message dict. -/
inductive EngineInput where
  | commandResume (resume : List Char)
  | userMessage (content : List Char)
deriving DecidableEq

/-- The parts of a `ResearchStreamRequest` that `continue_research_stream`
branches on: the message text and `context["interrupt_feedback"]` (absent
when `context` is missing or lacks the key). -/
structure ContinueRequest where
  message : List Char
  interruptFeedback : Option (List Char)
deriving DecidableEq

/-- The resume token built by `continue_research_stream` (lines 1113-1116):
`f"[{interrupt_feedback.upper()}]"`, extended with `f" {request.message}"`
when the message is truthy and strips to something non-empty. -/
def buildResumeMsg (feedback message : List Char) : List Char :=
  let base := '[' :: (pyUpper feedback ++ [']'])
  if message ≠ [] ∧ pyStrip message ≠ [] then base ++ ' ' :: message else base

/-- The fields of a persisted message that the monitoring path reads. -/
structure StoredMessage where
  content : String
  sourceAgent : Option String
deriving DecidableEq

/-- The historical `message_chunk` event emitted for one persisted message
(`continue_research_stream`, lines 1241-1268): `chunk_type="history"`,
`agent_name = msg.source_agent or "assistant"`. -/
def monitorChunk (m : StoredMessage) : WireEvent :=
  WireEvent.messageChunk "history" (m.sourceAgent.getD "assistant")

/-- The `is_running` test of the monitoring path (lines 1220-1233): state
present and `next` non-empty; `False` when `aget_state` raised. -/
def isRunning : Option (Option StateSnapshot) → Bool
  | some (some s) => s.next ≠ []
  | _ => false

/-- The `next` node list used for the monitoring progress event. -/
def nextNodes : Option (Option StateSnapshot) → List String
  | some (some s) => s.next
  | _ => []

/-- The monitoring branch of `continue_research_stream` (lines 1155-1315):
metadata, an error if the session row is missing, otherwise historical
message chunks, a progress event while the engine still has work, and a
final complete event whose status distinguishes the two cases. -/
def monitorStream (sessionFound : Bool) (stateResult : Option (Option StateSnapshot))
    (history : List StoredMessage) : List WireEvent :=
  WireEvent.metadata "monitor" ::
    if sessionFound = false then [WireEvent.error "SESSION_NOT_FOUND"]
    else
      (history.map monitorChunk) ++
      (if isRunning stateResult then
        [WireEvent.progress ((nextNodes stateResult).headD "unknown") []
          (nextNodes stateResult) "任务正在后台运行中..."]
      else []) ++
      [WireEvent.complete
        (if isRunning stateResult then "task_running" else "monitoring_complete")]

/-- `ResearchStreamService.continue_research_stream`, after the thread id has
been resolved.  Returns the emitted wire events together with the engine
invocations issued (empty in monitoring mode).  `engineEvents`, `crash` and
`stateResult` describe the engine's behaviour for the invocation, when one
happens; `sessionFound` and `history` feed the monitoring branch. -/
def continueResearchStream (req : ContinueRequest) (engineEvents : List EngineEvent)
    (crash : Bool) (stateResult : Option (Option StateSnapshot)) (sessionFound : Bool)
    (history : List StoredMessage) : List WireEvent × List EngineInput :=
  match req.interruptFeedback with
  | some f =>
    (processStream "feedback" engineEvents crash stateResult,
      [EngineInput.commandResume (buildResumeMsg f req.message)])
  | none =>
    if req.message ≠ [] ∧ pyStrip req.message ≠ [] then
      (processStream "continue" engineEvents crash stateResult,
        [EngineInput.userMessage req.message])
    else
      (monitorStream sessionFound stateResult history, [])

/-- `ResearchStreamService.create_research_stream`: session/execution setup
followed by `_process_langgraph_stream` with `execution_type="create"`; any
setup exception is caught and surfaced as a single error event (lines
1065-1081). -/
def createResearchStream (setupOk : Bool) (engineEvents : List EngineEvent) (crash : Bool)
    (stateResult : Option (Option StateSnapshot)) : List WireEvent :=
  if setupOk then processStream "create" engineEvents crash stateResult
  else [WireEvent.error "CREATE_STREAM_ERROR"]

/-- `ResearchAskService._handle_stream_ask` (`research_create_api.py`, lines
123-274): after the session is prepared, for `initial` and `followup` alike,
a navigation event is yielded, then the delegated stream's events; a
preparation failure yields a single error event instead. -/
def handleStreamAsk (prepOk : Bool) (delegated : List WireEvent) : List WireEvent :=
  if prepOk then WireEvent.navigation :: delegated
  else [WireEvent.error "STREAM_ERROR"]

/-- Python `str.startswith`. -/
def startsWith (l pre : List Char) : Bool := pre.isPrefixOf l

/-- Where `human_feedback_node` routes a resume value (lines 215-277 of
`nodes.py`): edit-plan back to the project manager, accepted falls through
to plan execution, skip-research and cancel and reask to their nodes,
anything else raises `TypeError`. -/
inductive FeedbackRoute where
  | gotoProjectmanager
  | planAccepted
  | skipResearch
  | cancelled
  | gotoReask
  | unsupportedFeedback
deriving DecidableEq

/-- The branch cascade of `human_feedback_node` on a resume value. -/
def routeFeedback (feedback : List Char) : FeedbackRoute :=
  if feedback ≠ [] ∧ startsWith (pyUpper feedback) (("[EDIT_PLAN]").toList) then
    .gotoProjectmanager
  else if feedback ≠ [] ∧ startsWith (pyUpper feedback) (("[ACCEPTED]").toList) then
    .planAccepted
  else if feedback ≠ [] ∧ (startsWith (pyUpper feedback) (("[SKIP_RESEARCH]").toList) ∨
      pyLower feedback = ("skip_research").toList) then
    .skipResearch
  else if feedback ≠ [] ∧ (startsWith (pyUpper feedback) (("[CANCEL]").toList) ∨
      pyLower feedback = ("cancel").toList) then
    .cancelled
  else if feedback ≠ [] ∧ (startsWith (pyUpper feedback) (("[REASK]").toList) ∨
      pyLower feedback = ("reask").toList) then
    .gotoReask
  else .unsupportedFeedback

/-- The options offered by `human_feedback_node` through its own interrupt call
(`nodes.py`, lines 205-210). -/
def humanFeedbackOptions : List InterruptOption :=
  [⟨"开始研究", "accepted"⟩, ⟨"立即生成报告", "skip_research"⟩,
   ⟨"编辑计划", "edit_plan"⟩, ⟨"重新提问", "reask"⟩]

/-- The JSON-ish values a config field can hold. -/
inductive PyVal where
  | none
  | bool (b : Bool)
  | int (n : Int)
  | str (s : String)
deriving DecidableEq

/-- Python truthiness of a config value. -/
def truthy : PyVal → Bool
  | .none => false
  | .bool b => b
  | .int n => n ≠ 0
  | .str s => s ≠ ""

/-- Python `a or b`: the left operand when truthy, otherwise the right one. -/
def pyOr (a b : PyVal) : PyVal := if truthy a then a else b

/-- The `nested.get(key) or flat.get(key) or default` pattern used for every
field of `_parse_config`'s research config. -/
def parseField (nested flat dflt : PyVal) : PyVal := pyOr (pyOr nested flat) dflt

/-- The two lookups `_parse_config` performs per research key:
`config.get("research", {}).get(key)` and `config.get(key)`; a missing key
yields `PyVal.none`. -/
structure ConfigDict where
  research : String → PyVal
  flat : String → PyVal

/-- The research section produced by `_parse_config` (`research_create_api.py`,
lines 480-518). -/
structure ResearchConfig where
  auto_accepted_plan : PyVal
  enable_background_investigation : PyVal
  report_style : PyVal
  enable_deep_thinking : PyVal
  max_plan_iterations : PyVal
  max_step_num : PyVal
  max_search_results : PyVal
deriving DecidableEq

/-- `ResearchAskService._parse_config`, research part.  Note the nested key for
`max_plan_iterations` is `max_research_depth` in the source. -/
def parse_config_research (cfg : ConfigDict) : ResearchConfig where
  auto_accepted_plan :=
    parseField (cfg.research "auto_accepted_plan") (cfg.flat "auto_accepted_plan")
      (.bool false)
  enable_background_investigation :=
    parseField (cfg.research "enable_background_investigation")
      (cfg.flat "enable_background_investigation") (.bool true)
  report_style :=
    parseField (cfg.research "report_style") (cfg.flat "report_style") (.str "academic")
  enable_deep_thinking :=
    parseField (cfg.research "enable_deep_thinking") (cfg.flat "enable_deep_thinking")
      (.bool false)
  max_plan_iterations :=
    parseField (cfg.research "max_research_depth") (cfg.flat "max_plan_iterations")
      (.int 3)
  max_step_num :=
    parseField (cfg.research "max_step_num") (cfg.flat "max_step_num") (.int 5)
  max_search_results :=
    parseField (cfg.research "max_search_results") (cfg.flat "max_search_results")
      (.int 5)

/-- Events that the per-engine-event translation can produce: node bookkeeping,
content and progress events.  Excludes metadata, navigation and all terminal
events. -/
def isBodyEvent : WireEvent → Bool
  | .nodeStart _ => true
  | .nodeComplete _ => true
  | .messageChunk _ _ => true
  | .streamChunk => true
  | .toolCalls => true
  | .toolCallChunks => true
  | .toolCallResult => true
  | .planGenerated => true
  | .searchResults => true
  | .artifact => true
  | .progress _ _ _ _ => true
  | _ => false

/-- Events that end an execution's stream: interrupt, reask, complete, error. -/
def isTerminalEvent : WireEvent → Bool
  | .interrupt _ _ => true
  | .reaskEvent _ => true
  | .complete _ => true
  | .error _ => true
  | _ => false

/-- Membership of the wire type in the set {complete, interrupt, error} of the
ordering guarantee. -/
def isProtocolTerminal (w : WireEvent) : Bool :=
  etype w == "complete" || etype w == "interrupt" || etype w == "error"

/-- The number of {complete, interrupt, error} events in a stream. -/
def terminalCount (ws : List WireEvent) : Nat := (ws.filter isProtocolTerminal).length

/-- The body chunks produced for a list of engine events, threading the
`(current_node, completed_nodes)` state: the contiguous per-event event
blocks, in engine order.  (On an interrupt signal it produces nothing; it is
compared with `processEvents` only on interrupt-free prefixes.) -/
def mainChunks (st : String × List String) :
    List EngineEvent → (String × List String) × List WireEvent
  | [] => (st, [])
  | .interruptSig _ :: _ => (st, [])
  | .updates items :: rest =>
    let r := processUpdates st items
    let r2 := mainChunks r.1 rest
    (r2.1, r.2 ++ r2.2)
  | .message k :: rest =>
    let r2 := mainChunks st rest
    (r2.1, processMessage k ++ r2.2)

/-! ## Theorems -/

theorem char_toNat_ofNat {n : Nat} (h : n.isValidChar) : (Char.ofNat n).toNat = n := by
  unfold Char.ofNat
  rw [dif_pos h]
  unfold Char.ofNatAux Char.toNat
  simp [UInt32.toNat, BitVec.toNat_ofNatLt]

theorem toLower_isAlphanum {c : Char} (h : c.isAlphanum = true) :
    (Char.toLower c).isAlphanum = true := by
  have hd : Char.toLower c =
      if c.toNat ≥ 65 ∧ c.toNat ≤ 90 then Char.ofNat (c.toNat + 32) else c := rfl
  rw [hd]
  split
  · next hn =>
    have hv : (c.toNat + 32).isValidChar := by
      left
      omega
    have ht : (Char.ofNat (c.toNat + 32)).toNat = c.toNat + 32 := char_toNat_ofNat hv
    have hT : ((Char.ofNat (c.toNat + 32)).val).toBitVec.toNat = c.toNat + 32 := ht
    have hlow : (Char.ofNat (c.toNat + 32)).isLower = true := by
      unfold Char.isLower
      simp only [ge_iff_le, Bool.and_eq_true, decide_eq_true_eq]
      constructor
      · rw [UInt32.le_def, BitVec.le_def, hT]
        norm_num
        omega
      · rw [UInt32.le_def, BitVec.le_def, hT]
        norm_num
        omega
    unfold Char.isAlphanum Char.isAlpha
    rw [hlow]
    simp
  · exact h

theorem head?_mergeHyphens (l : List Char) : (mergeHyphens l).head? = l.head? := by
  induction l using mergeHyphens.induct with
  | case1 => rfl
  | case2 c => rfl
  | case3 a b rest h ih =>
    rw [mergeHyphens, if_pos h, ih]
    simp [h.1, h.2]
  | case4 a b rest h ih =>
    rw [mergeHyphens, if_neg h]
    rfl

theorem mem_mergeHyphens {c : Char} {l : List Char} (h : c ∈ mergeHyphens l) : c ∈ l := by
  induction l using mergeHyphens.induct with
  | case1 => simp [mergeHyphens] at h
  | case2 d => simpa [mergeHyphens] using h
  | case3 a b rest hp ih =>
    rw [mergeHyphens, if_pos hp] at h
    exact List.mem_cons_of_mem a (ih h)
  | case4 a b rest hp ih =>
    rw [mergeHyphens, if_neg hp] at h
    rcases List.mem_cons.mp h with h1 | h2
    · exact h1 ▸ List.mem_cons_self a _
    · exact List.mem_cons_of_mem a (ih h2)

theorem length_mergeHyphens_le (l : List Char) : (mergeHyphens l).length ≤ l.length := by
  induction l using mergeHyphens.induct with
  | case1 => simp [mergeHyphens]
  | case2 c => simp [mergeHyphens]
  | case3 a b rest h ih =>
    rw [mergeHyphens, if_pos h]
    simp only [List.length_cons] at ih ⊢
    omega
  | case4 a b rest h ih =>
    rw [mergeHyphens, if_neg h]
    simp only [List.length_cons] at ih ⊢
    omega

theorem hasDoubleHyphen_eq_false_iff (l : List Char) :
    hasDoubleHyphen l = false ↔ List.Chain' noDoubleRel l := by
  induction l with
  | nil => simp [hasDoubleHyphen]
  | cons a t ih =>
    cases t with
    | nil => simp [hasDoubleHyphen]
    | cons b rest =>
      rw [hasDoubleHyphen, List.chain'_cons, ← ih]
      constructor
      · intro h
        simp only [Bool.or_eq_false_iff, Bool.and_eq_false_iff] at h
        refine ⟨?_, h.2⟩
        intro ⟨ha, hb⟩
        rcases h.1 with h1 | h1 <;> simp [ha, hb] at h1
      · intro ⟨h1, h2⟩
        simp only [Bool.or_eq_false_iff, Bool.and_eq_false_iff]
        refine ⟨?_, h2⟩
        by_cases ha : a = '-'
        · right
          by_cases hb : b = '-'
          · exact absurd ⟨ha, hb⟩ h1
          · simp [hb]
        · left
          simp [ha]

theorem chain'_mergeHyphens (l : List Char) :
    List.Chain' noDoubleRel (mergeHyphens l) := by
  induction l using mergeHyphens.induct with
  | case1 => simp [mergeHyphens]
  | case2 c => simp [mergeHyphens]
  | case3 a b rest h ih =>
    rw [mergeHyphens, if_pos h]
    exact ih
  | case4 a b rest h ih =>
    rw [mergeHyphens, if_neg h]
    have hne : mergeHyphens (b :: rest) ≠ [] := by
      intro hc
      have := head?_mergeHyphens (b :: rest)
      rw [hc] at this
      simp at this
    obtain ⟨x, M, hM⟩ := List.exists_cons_of_ne_nil hne
    have hx : x = b := by
      have := head?_mergeHyphens (b :: rest)
      rw [hM] at this
      simpa using this
    rw [hM, List.chain'_cons]
    constructor
    · intro ⟨ha, hb⟩
      exact h ⟨ha, hx ▸ hb⟩
    · rw [← hM]
      exact ih

theorem noDouble_flip : flip noDoubleRel = noDoubleRel := by
  funext a b
  unfold flip noDoubleRel
  apply propext
  constructor <;> (intro h hc; exact h ⟨hc.2, hc.1⟩)

theorem chain'_rstripChar {x : Char} {l : List Char} (h : List.Chain' noDoubleRel l) :
    List.Chain' noDoubleRel (rstripChar x l) := by
  unfold rstripChar
  rw [List.chain'_reverse, noDouble_flip]
  refine List.Chain'.suffix ?_ (List.dropWhile_suffix _)
  rw [List.chain'_reverse, noDouble_flip]
  exact h

theorem chain'_stripChar {x : Char} {l : List Char} (h : List.Chain' noDoubleRel l) :
    List.Chain' noDoubleRel (stripChar x l) := by
  unfold stripChar
  exact chain'_rstripChar (List.Chain'.suffix h (List.dropWhile_suffix _))

theorem head?_dropWhile_ne {p : Char → Bool} {l : List Char} {c : Char}
    (h : (l.dropWhile p).head? = some c) : p c = false := by
  induction l with
  | nil => simp at h
  | cons a t ih =>
    rw [List.dropWhile_cons] at h
    split at h
    · exact ih h
    · next hpa =>
      simp only [List.head?_cons, Option.some.injEq] at h
      subst h
      simpa using hpa

theorem getLast?_rstripChar_ne {x : Char} {l : List Char} {c : Char}
    (h : (rstripChar x l).getLast? = some c) : c ≠ x := by
  unfold rstripChar at h
  rw [List.getLast?_reverse] at h
  have := head?_dropWhile_ne h
  simpa using this

theorem mem_rstripChar {x c : Char} {l : List Char} (h : c ∈ rstripChar x l) : c ∈ l := by
  unfold rstripChar at h
  rw [List.mem_reverse] at h
  have := (@List.dropWhile_suffix _ l.reverse (fun d => d = x)).sublist.subset h
  simpa using this

theorem mem_stripChar {x c : Char} {l : List Char} (h : c ∈ stripChar x l) : c ∈ l := by
  unfold stripChar at h
  have := mem_rstripChar h
  exact (List.dropWhile_suffix (fun d => d = x)).sublist.subset this

theorem length_rstripChar_le (x : Char) (l : List Char) :
    (rstripChar x l).length ≤ l.length := by
  unfold rstripChar
  rw [List.length_reverse]
  have := (@List.dropWhile_suffix _ l.reverse (fun d => d = x)).sublist.length_le
  simpa using this

theorem length_stripChar_le (x : Char) (l : List Char) :
    (stripChar x l).length ≤ l.length := by
  unfold stripChar
  refine le_trans (length_rstripChar_le _ _) ?_
  exact (List.dropWhile_suffix (fun d => d = x)).sublist.length_le

theorem rstripChar_isPre (x : Char) (l : List Char) : rstripChar x l <+: l := by
  unfold rstripChar
  rw [← List.reverse_reverse l]
  rw [List.reverse_suffix.symm]
  simp only [List.reverse_reverse]
  exact List.dropWhile_suffix _

theorem head?_stripChar_ne {x : Char} {l : List Char} {c : Char}
    (h : (stripChar x l).head? = some c) : c ≠ x := by
  unfold stripChar at h
  cases hM : rstripChar x (l.dropWhile (fun d => d = x)) with
  | nil =>
    rw [hM] at h
    simp at h
  | cons y M =>
    rw [hM] at h
    simp only [List.head?_cons, Option.some.injEq] at h
    obtain ⟨t, ht⟩ := rstripChar_isPre x (l.dropWhile (fun d => d = x))
    rw [hM] at ht
    have hhead : (l.dropWhile (fun d => d = x)).head? = some y := by
      rw [← ht]
      simp
    have hy := head?_dropWhile_ne hhead
    rw [← h]
    simp only [decide_eq_false_iff_not] at hy
    exact hy

theorem mem_joinHyphen {c : Char} {parts : List (List Char)} (h : c ∈ joinHyphen parts) :
    c = '-' ∨ ∃ p ∈ parts, c ∈ p := by
  induction parts using joinHyphen.induct with
  | case1 => simp [joinHyphen] at h
  | case2 p =>
    right
    exact ⟨p, by simp, by simpa [joinHyphen] using h⟩
  | case3 p q hq ih =>
    cases q with
    | nil => exact absurd rfl hq
    | cons x xs =>
    rw [show joinHyphen (p :: x :: xs) = p ++ '-' :: joinHyphen (x :: xs) from rfl] at h
    rcases List.mem_append.mp h with h1 | h2
    · right
      exact ⟨p, by simp, h1⟩
    · rcases List.mem_cons.mp h2 with h3 | h4
      · left
        exact h3
      · rcases ih h4 with h5 | ⟨r, hr, hcr⟩
        · left
          exact h5
        · right
          exact ⟨r, by simp [hr], hcr⟩

theorem chinese_to_pinyin_chars {c : Char} {pys : List (List Char)}
    (h : c ∈ chinese_to_pinyin pys) : alnumHyphen c = true := by
  unfold chinese_to_pinyin at h
  rcases mem_joinHyphen h with h1 | ⟨p, hp, hcp⟩
  · simp [alnumHyphen, h1]
  · simp only [List.mem_map] at hp
    obtain ⟨q, hq, rfl⟩ := hp
    simp only [pyLower, List.mem_map] at hcp
    obtain ⟨c0, hc0, rfl⟩ := hcp
    have hq1 := (List.mem_filter.mp hq).1
    obtain ⟨py, _, rfl⟩ := List.mem_map.mp hq1
    have halpha : c0.isAlpha = true := by
      have := (List.mem_filter.mp hc0).2
      simpa [cleanPy] using this
    have halnum : c0.isAlphanum = true := by
      unfold Char.isAlphanum
      simp [halpha]
    simp [alnumHyphen, toLower_isAlphanum halnum]

theorem processKeywords_chars {pin : List Char → List (List Char)}
    {kws : List (List Char)} {p : List Char} (hp : p ∈ processKeywords pin kws)
    {c : Char} (hc : c ∈ p) : alnumHyphen c = true := by
  unfold processKeywords at hp
  rw [List.mem_flatMap] at hp
  obtain ⟨kw, _, hmem⟩ := hp
  by_cases hcjk : containsCJK kw = true
  · rw [if_pos hcjk] at hmem
    change p ∈ (if chinese_to_pinyin (pin kw) ≠ [] then [chinese_to_pinyin (pin kw)]
      else []) at hmem
    split at hmem
    · simp only [List.mem_singleton] at hmem
      subst hmem
      exact chinese_to_pinyin_chars hc
    · simp at hmem
  · rw [if_neg hcjk] at hmem
    change p ∈ (if cleanEnglish kw ≠ [] then [cleanEnglish kw] else []) at hmem
    split at hmem
    · simp only [List.mem_singleton] at hmem
      subst hmem
      have := (List.mem_filter.mp hc).2
      simp [alnumHyphen, this]
    · simp at hmem

theorem mem_of_head?_eq {α : Type} {l : List α} {a : α} (h : l.head? = some a) : a ∈ l := by
  cases l with
  | nil => simp at h
  | cons x t =>
    simp only [List.head?_cons, Option.some.injEq] at h
    subst h
    exact List.mem_cons_self x t

theorem mem_of_getLast?_eq {α : Type} {l : List α} {a : α} (h : l.getLast? = some a) :
    a ∈ l := by
  rw [← List.head?_reverse] at h
  rw [← List.mem_reverse]
  exact mem_of_head?_eq h

theorem safeChars_alnum : ∀ c ∈ safeChars, alnumHyphen c = true := by decide

theorem safeChars_ne_hyphen : ∀ c ∈ safeChars, c ≠ '-' := by decide

theorem noHyphen_hasDoubleHyphen :
    ∀ (l : List Char), (∀ c ∈ l, c ≠ '-') → hasDoubleHyphen l = false
  | [], _ => rfl
  | [_], _ => rfl
  | a :: b :: r, h => by
    rw [hasDoubleHyphen]
    have ha : a ≠ '-' := h a (List.mem_cons_self a _)
    have hrest := noHyphen_hasDoubleHyphen (b :: r)
      (fun c hc => h c (List.mem_cons_of_mem a hc))
    simp [ha, hrest]

theorem hasDoubleHyphen_hyphen_cons {l : List Char} (h : ∀ c ∈ l, c ≠ '-') :
    hasDoubleHyphen ('-' :: l) = false := by
  cases l with
  | nil => rfl
  | cons b r =>
    rw [hasDoubleHyphen]
    have hb : b ≠ '-' := h b (List.mem_cons_self b _)
    simp [hb, noHyphen_hasDoubleHyphen (b :: r) h]

theorem goodSlug_questionFallback {sfx : List Char} (hs : SuffixOk sfx) :
    GoodSlug (questionFallback sfx) := by
  obtain ⟨hlen, hmem⟩ := hs
  have hlit : ∀ c ∈ ("question-").toList, alnumHyphen c = true := by decide
  have hcons : questionFallback sfx =
      'q' :: 'u' :: 'e' :: 's' :: 't' :: 'i' :: 'o' :: 'n' :: '-' :: sfx := rfl
  have hnh : ∀ c ∈ sfx, c ≠ '-' := fun c hc => safeChars_ne_hyphen c (hmem c hc)
  have hsne : sfx ≠ [] := by
    intro hc
    rw [hc] at hlen
    simp at hlen
  refine ⟨?_, ?_, ?_, ?_, ?_, ?_⟩
  · unfold questionFallback
    simp [hlen]
  · unfold questionFallback
    simp [hlen]
  · intro c hc
    rcases List.mem_append.mp hc with h1 | h2
    · exact hlit c h1
    · exact safeChars_alnum c (hmem c h2)
  · intro c hc
    rw [hcons] at hc
    simp only [List.head?_cons, Option.some.injEq] at hc
    subst hc
    decide
  · intro c hc
    unfold questionFallback at hc
    rw [List.getLast?_append] at hc
    cases hg : sfx.getLast? with
    | none =>
      exact absurd (List.getLast?_eq_none_iff.mp hg) hsne
    | some d =>
      rw [hg] at hc
      simp only [Option.or_some, Option.some.injEq] at hc
      subst hc
      exact hnh d (mem_of_getLast?_eq hg)
  · rw [hcons]
    have hend := hasDoubleHyphen_hyphen_cons hnh
    simp [hasDoubleHyphen, hend]

theorem keywordsPart_chars {pin : List Char → List (List Char)} {kws : List (List Char)}
    {c : Char} (h : c ∈ keywordsPart (processKeywords pin kws)) : alnumHyphen c = true := by
  unfold keywordsPart at h
  split at h
  · revert h
    revert c
    decide
  · rcases mem_joinHyphen h with h1 | ⟨p, hp, hcp⟩
    · simp [alnumHyphen, h1]
    · exact processKeywords_chars hp hcp

theorem truncatedKeywordsPart_chars {kp0 : List Char} {c : Char}
    (hk : ∀ d ∈ kp0, alnumHyphen d = true)
    (h : c ∈ truncatedKeywordsPart 50 kp0) : alnumHyphen c = true := by
  unfold truncatedKeywordsPart at h
  split at h
  · have h1 := mem_rstripChar h
    exact hk c ((List.take_sublist _ _).subset h1)
  · exact hk c h

theorem truncatedKeywordsPart_len (kp0 : List Char) :
    (truncatedKeywordsPart 50 kp0).length ≤ 40 := by
  unfold truncatedKeywordsPart
  split
  · refine le_trans (length_rstripChar_le _ _) ?_
    rw [List.length_take]
    omega
  · omega

theorem cleanedParam_chars {kp sfx : List Char} {c : Char}
    (hk : ∀ d ∈ kp, alnumHyphen d = true) (hsc : ∀ d ∈ sfx, d ∈ safeChars)
    (h : c ∈ cleanedParam kp sfx) : alnumHyphen c = true := by
  unfold cleanedParam at h
  have h1 := mem_mergeHyphens (mem_stripChar h)
  rcases List.mem_append.mp h1 with h2 | h3
  · exact hk c h2
  · rcases List.mem_cons.mp h3 with h4 | h5
    · simp [alnumHyphen, h4]
    · exact safeChars_alnum c (hsc c h5)

theorem cleanedParam_len {kp sfx : List Char} (hkp : kp.length ≤ 40)
    (hsfx : sfx.length = 8) : (cleanedParam kp sfx).length ≤ 49 := by
  unfold cleanedParam
  refine le_trans (length_stripChar_le _ _) ?_
  refine le_trans (length_mergeHyphens_le _) ?_
  simp only [List.length_append, List.length_cons]
  omega

theorem cleanedParam_head {kp sfx : List Char} {c : Char}
    (h : (cleanedParam kp sfx).head? = some c) : c ≠ '-' :=
  head?_stripChar_ne h

theorem cleanedParam_last {kp sfx : List Char} {c : Char}
    (h : (cleanedParam kp sfx).getLast? = some c) : c ≠ '-' :=
  getLast?_rstripChar_ne h

theorem cleanedParam_noDouble (kp sfx : List Char) :
    hasDoubleHyphen (cleanedParam kp sfx) = false := by
  unfold cleanedParam
  rw [hasDoubleHyphen_eq_false_iff]
  exact chain'_stripChar (chain'_mergeHyphens _)

theorem goodSlug_finalize {sfx0 cleaned : List Char} (hs0 : SuffixOk sfx0)
    (hchars : ∀ c ∈ cleaned, alnumHyphen c = true)
    (hhead : ∀ c, cleaned.head? = some c → c ≠ '-')
    (hlast : ∀ c, cleaned.getLast? = some c → c ≠ '-')
    (hdbl : hasDoubleHyphen cleaned = false)
    (hlen : cleaned.length ≤ 49) :
    GoodSlug (finalizeParam 50 sfx0 cleaned) := by
  unfold finalizeParam
  split
  · exact goodSlug_questionFallback hs0
  · next hcond =>
    push_neg at hcond
    split
    · next hgt => omega
    · exact ⟨by omega, by omega, hchars, hhead, hlast, hdbl⟩

theorem goodSlug_generate (question : List Char) (keywords : List (List Char))
    (pin : List Char → List (List Char)) {sfx sfx0 : List Char}
    (hs : SuffixOk sfx) (hs0 : SuffixOk sfx0) :
    GoodSlug (generate_url_param question keywords pin sfx sfx0 50) := by
  unfold generate_url_param
  split
  · exact goodSlug_questionFallback hs0
  split
  · exact goodSlug_questionFallback hs0
  refine goodSlug_finalize hs0 ?_ (fun c h => cleanedParam_head h)
    (fun c h => cleanedParam_last h) (cleanedParam_noDouble _ _) ?_
  · intro c hc
    exact cleanedParam_chars
      (fun d hd => truncatedKeywordsPart_chars (fun e he => keywordsPart_chars he) hd)
      (fun d hd => hs.2 d hd) hc
  · exact cleanedParam_len (truncatedKeywordsPart_len _) hs.1

theorem validate_of_goodSlug {l : List Char} (h : GoodSlug l) :
    validate_url_param l = true := by
  obtain ⟨h5, h50, hchars, hhead, hlast, hdbl⟩ := h
  have hne : l ≠ [] := by
    intro hc
    rw [hc] at h5
    simp at h5
  unfold validate_url_param
  rw [if_neg hne]
  rw [if_neg (by omega : ¬(l.length < 5 ∨ l.length > 100))]
  rw [if_neg (not_not_intro (List.all_eq_true.mpr hchars))]
  rw [if_neg ?hc4]
  case hc4 =>
    intro hcontra
    rcases hcontra with hh | hl
    · exact hhead '-' hh rfl
    · exact hlast '-' hl rfl
  rw [if_neg ?hc5]
  case hc5 =>
    intro hcontra
    rw [hdbl] at hcontra
    exact Bool.false_ne_true hcontra

theorem body_processNodeItem (st : String × List String) (item : String × NodeOutput) :
    ∀ w ∈ (processNodeItem st item).2, isBodyEvent w = true := by
  intro w hw
  simp only [processNodeItem] at hw
  split at hw
  · simp at hw
  · rcases List.mem_append.mp hw with hw1 | hw2
    · rcases List.mem_append.mp hw1 with hw3 | hw4
      · split at hw3
        · split at hw3
          · rcases List.mem_cons.mp hw3 with h | h
            · subst h
              rfl
            · rcases List.mem_cons.mp h with h2 | h2
              · subst h2
                rfl
              · simp at h2
          · rcases List.mem_cons.mp hw3 with h | h
            · subst h
              rfl
            · simp at h
        · simp at hw3
      · split at hw4
        · rcases List.mem_append.mp hw4 with h | h
          · rcases List.mem_append.mp h with h2 | h2
            · rcases List.mem_append.mp h2 with h3 | h3
              · split at h3
                · next content _ =>
                  split at h3
                  · rcases List.mem_cons.mp h3 with h4 | h4
                    · subst h4
                      rfl
                    · simp at h4
                  · simp at h3
                · simp at h3
              · split at h3
                · rcases List.mem_cons.mp h3 with h4 | h4
                  · subst h4
                    rfl
                  · simp at h4
                · simp at h3
            · split at h2
              · rcases List.mem_cons.mp h2 with h4 | h4
                · subst h4
                  rfl
                · simp at h4
              · simp at h2
          · split at h
            · rcases List.mem_cons.mp h with h4 | h4
              · subst h4
                rfl
              · simp at h4
            · simp at h
        · simp at hw4
    · rcases List.mem_cons.mp hw2 with h | h
      · subst h
        rfl
      · simp at h

theorem body_processUpdates (items : List (String × NodeOutput)) :
    ∀ (st : String × List String), ∀ w ∈ (processUpdates st items).2, isBodyEvent w = true := by
  induction items with
  | nil =>
    intro st w hw
    simp [processUpdates] at hw
  | cons item rest ih =>
    intro st w hw
    simp only [processUpdates] at hw
    rcases List.mem_append.mp hw with h | h
    · exact body_processNodeItem st item w h
    · exact ih _ w h

theorem body_processMessage (k : MsgKind) : ∀ w ∈ processMessage k, isBodyEvent w = true := by
  cases k <;> (intro w hw) <;> simp [processMessage] at hw <;> subst hw <;> rfl

theorem terminal_translateInterrupt (v : InterruptValue) :
    isTerminalEvent (translateInterrupt v) = true := by
  cases v <;> rfl

theorem body_mainChunks (evs : List EngineEvent) :
    ∀ (st : String × List String), ∀ w ∈ (mainChunks st evs).2, isBodyEvent w = true := by
  induction evs with
  | nil =>
    intro st w hw
    simp [mainChunks] at hw
  | cons e rest ih =>
    intro st w hw
    cases e with
    | interruptSig v => simp [mainChunks] at hw
    | updates items =>
      simp only [mainChunks] at hw
      rcases List.mem_append.mp hw with h | h
      · exact body_processUpdates items st w h
      · exact ih _ w h
    | message k =>
      simp only [mainChunks] at hw
      rcases List.mem_append.mp hw with h | h
      · exact body_processMessage k w h
      · exact ih _ w h

theorem completionCheck_shape (sr : Option (Option StateSnapshot)) :
    completionCheck sr = [] ∨ completionCheck sr = [WireEvent.complete "completed"] := by
  rcases sr with _ | ⟨_ | s⟩
  · left
    rfl
  · left
    rfl
  · rw [show completionCheck (some (some s)) =
      (if hasInterrupt s = false ∧ s.next = [] then [WireEvent.complete "completed"]
        else []) from rfl]
    split
    · right
      rfl
    · left
      rfl

theorem processEvents_shape (evs : List EngineEvent) :
    ∀ (st : String × List String) (crash : Bool) (sr : Option (Option StateSnapshot)),
    ∃ body tail, processEvents st crash sr evs = body ++ tail ∧
      (∀ w ∈ body, isBodyEvent w = true) ∧
      (tail = [] ∨ ∃ w, tail = [w] ∧ isTerminalEvent w = true) := by
  induction evs with
  | nil =>
    intro st crash sr
    refine ⟨[], processEvents st crash sr [], rfl, by simp, ?_⟩
    show processEvents st crash sr [] = [] ∨ _
    unfold processEvents
    split
    · right
      exact ⟨WireEvent.error "LANGGRAPH_EXECUTION_ERROR", rfl, rfl⟩
    · rcases completionCheck_shape sr with h | h
      · left
        exact h
      · right
        exact ⟨WireEvent.complete "completed", h, rfl⟩
  | cons e rest ih =>
    intro st crash sr
    cases e with
    | interruptSig v =>
      refine ⟨[], [translateInterrupt v], rfl, by simp, ?_⟩
      right
      exact ⟨translateInterrupt v, rfl, terminal_translateInterrupt v⟩
    | updates items =>
      obtain ⟨body, tail, he, hb, ht⟩ := ih (processUpdates st items).1 crash sr
      refine ⟨(processUpdates st items).2 ++ body, tail, ?_, ?_, ht⟩
      · show (processUpdates st items).2 ++ processEvents _ crash sr rest = _
        rw [he, List.append_assoc]
      · intro w hw
        rcases List.mem_append.mp hw with h | h
        · exact body_processUpdates items st w h
        · exact hb w h
    | message k =>
      obtain ⟨body, tail, he, hb, ht⟩ := ih st crash sr
      refine ⟨processMessage k ++ body, tail, ?_, ?_, ht⟩
      · show processMessage k ++ processEvents st crash sr rest = _
        rw [he, List.append_assoc]
      · intro w hw
        rcases List.mem_append.mp hw with h | h
        · exact body_processMessage k w h
        · exact hb w h

theorem body_not_protocolTerminal {w : WireEvent} (h : isBodyEvent w = true) :
    isProtocolTerminal w = false := by
  cases w <;> first | rfl | exact absurd h (by simp [isBodyEvent])

theorem body_not_metadata {w : WireEvent} (h : isBodyEvent w = true) :
    ∀ s, w ≠ WireEvent.metadata s := by
  cases w <;> intro s hc <;> simp_all [isBodyEvent]

theorem body_not_complete {w : WireEvent} (h : isBodyEvent w = true) :
    ∀ s, w ≠ WireEvent.complete s := by
  cases w <;> intro s hc <;> simp_all [isBodyEvent]

theorem body_not_navigation {w : WireEvent} (h : isBodyEvent w = true) :
    w ≠ WireEvent.navigation := by
  cases w <;> intro hc <;> simp_all [isBodyEvent]

theorem mem_processEvents {w : WireEvent} {st : String × List String} {crash : Bool}
    {sr : Option (Option StateSnapshot)} {evs : List EngineEvent}
    (h : w ∈ processEvents st crash sr evs) :
    isBodyEvent w = true ∨ isTerminalEvent w = true := by
  obtain ⟨body, tail, he, hb, ht⟩ := processEvents_shape evs st crash sr
  rw [he] at h
  rcases List.mem_append.mp h with h1 | h2
  · left
    exact hb w h1
  · rcases ht with rfl | ⟨x, rfl, hx⟩
    · simp at h2
    · right
      rw [List.mem_singleton.mp h2]
      exact hx

theorem metadata_not_mem_processEvents (s : String) (st : String × List String)
    (crash : Bool) (sr : Option (Option StateSnapshot)) (evs : List EngineEvent) :
    WireEvent.metadata s ∉ processEvents st crash sr evs := by
  intro h
  rcases mem_processEvents h with h1 | h1 <;> simp [isBodyEvent, isTerminalEvent] at h1

theorem navigation_not_mem_processEvents (st : String × List String)
    (crash : Bool) (sr : Option (Option StateSnapshot)) (evs : List EngineEvent) :
    WireEvent.navigation ∉ processEvents st crash sr evs := by
  intro h
  rcases mem_processEvents h with h1 | h1 <;> simp [isBodyEvent, isTerminalEvent] at h1

theorem processStream_complete_last {t : String} {evs : List EngineEvent} {crash : Bool}
    {sr : Option (Option StateSnapshot)} {fs : String}
    (h : WireEvent.complete fs ∈ processStream t evs crash sr) :
    ∃ pre, processStream t evs crash sr = pre ++ [WireEvent.complete fs] := by
  obtain ⟨body, tail, he, hb, ht⟩ := processEvents_shape evs ("", []) crash sr
  unfold processStream at h ⊢
  rw [he] at h ⊢
  rcases List.mem_cons.mp h with h1 | h1
  · exact absurd h1.symm (by simp)
  · rcases List.mem_append.mp h1 with h2 | h2
    · exact absurd rfl (body_not_complete (hb _ h2) fs)
    · rcases ht with rfl | ⟨x, rfl, _⟩
      · simp at h2
      · rw [List.mem_singleton.mp h2]
        exact ⟨WireEvent.metadata t :: body, by simp⟩

theorem terminalCount_processStream (t : String) (evs : List EngineEvent) (crash : Bool)
    (sr : Option (Option StateSnapshot)) :
    terminalCount (processStream t evs crash sr) ≤ 1 := by
  obtain ⟨body, tail, he, hb, ht⟩ := processEvents_shape evs ("", []) crash sr
  unfold processStream terminalCount
  rw [he]
  have hbody : body.filter isProtocolTerminal = [] :=
    List.filter_eq_nil_iff.mpr (fun w hw => by
      rw [body_not_protocolTerminal (hb w hw)]
      simp)
  rw [List.filter_cons, List.filter_append, hbody]
  have hmeta : isProtocolTerminal (WireEvent.metadata t) = false := rfl
  rw [hmeta]
  simp only [Bool.false_eq_true, if_false, List.nil_append, List.length_append]
  have : (tail.filter isProtocolTerminal).length ≤ tail.length :=
    List.length_filter_le _ _
  rcases ht with rfl | ⟨x, rfl, _⟩ <;> simp_all

theorem processEvents_append (xs : List EngineEvent) :
    ∀ (ys : List EngineEvent) (st : String × List String) (crash : Bool)
      (sr : Option (Option StateSnapshot)),
    (∀ v, EngineEvent.interruptSig v ∉ xs) →
    processEvents st crash sr (xs ++ ys) =
      (mainChunks st xs).2 ++ processEvents (mainChunks st xs).1 crash sr ys := by
  induction xs with
  | nil =>
    intro ys st crash sr _
    simp [mainChunks]
  | cons e rest ih =>
    intro ys st crash sr h
    cases e with
    | interruptSig v => exact absurd (List.mem_cons_self _ _) (h v)
    | updates items =>
      have hrest : ∀ v, EngineEvent.interruptSig v ∉ rest :=
        fun v hv => h v (List.mem_cons_of_mem _ hv)
      show (processUpdates st items).2 ++
          processEvents (processUpdates st items).1 crash sr (rest ++ ys) = _
      rw [ih ys _ crash sr hrest]
      simp only [mainChunks, List.append_assoc]
    | message k =>
      have hrest : ∀ v, EngineEvent.interruptSig v ∉ rest :=
        fun v hv => h v (List.mem_cons_of_mem _ hv)
      show processMessage k ++ processEvents st crash sr (rest ++ ys) = _
      rw [ih ys st crash sr hrest]
      simp only [mainChunks, List.append_assoc]

theorem processEvents_no_crash_no_interrupt {evs : List EngineEvent}
    {st : String × List String} {sr : Option (Option StateSnapshot)}
    (h : ∀ v, EngineEvent.interruptSig v ∉ evs) :
    processEvents st false sr evs = (mainChunks st evs).2 ++ completionCheck sr := by
  have := processEvents_append evs [] st false sr h
  rw [List.append_nil] at this
  rw [this]
  rfl

theorem completionCheck_eq_nil_iff (sr : Option (Option StateSnapshot)) :
    completionCheck sr = [] ↔
      ¬(∃ s, sr = some (some s) ∧ hasInterrupt s = false ∧ s.next = []) := by
  rcases sr with _ | ⟨_ | s⟩
  · simp [completionCheck]
  · simp [completionCheck]
  · rw [show completionCheck (some (some s)) =
      (if hasInterrupt s = false ∧ s.next = [] then [WireEvent.complete "completed"]
        else []) from rfl]
    split
    · next hcond =>
      constructor
      · intro hc
        exact absurd hc (by simp)
      · intro hc
        exact absurd ⟨s, rfl, hcond.1, hcond.2⟩ hc
    · next hcond =>
      constructor
      · intro _
        intro ⟨s2, hs2, h1, h2⟩
        rw [Option.some_inj, Option.some_inj] at hs2
        subst hs2
        exact hcond ⟨h1, h2⟩
      · intro _
        rfl

theorem completionCheck_eq_complete_iff (sr : Option (Option StateSnapshot)) :
    completionCheck sr = [WireEvent.complete "completed"] ↔
      ∃ s, sr = some (some s) ∧ hasInterrupt s = false ∧ s.next = [] := by
  rcases sr with _ | ⟨_ | s⟩
  · simp [completionCheck]
  · simp [completionCheck]
  · rw [show completionCheck (some (some s)) =
      (if hasInterrupt s = false ∧ s.next = [] then [WireEvent.complete "completed"]
        else []) from rfl]
    split
    · next hcond =>
      constructor
      · intro _
        exact ⟨s, rfl, hcond.1, hcond.2⟩
      · intro _
        rfl
    · next hcond =>
      constructor
      · intro hc
        exact absurd hc (by simp)
      · intro ⟨s2, hs2, h1, h2⟩
        rw [Option.some_inj, Option.some_inj] at hs2
        subst hs2
        exact absurd ⟨h1, h2⟩ hcond

/-- C1: for every stream produced by `_process_langgraph_stream`, the metadata
event comes first and no other metadata event appears; a complete event
(when emitted) is the last event; at most one of {complete, interrupt,
error} is emitted; and events appear in engine order: the translation of any
interrupt-free prefix of the engine events forms a contiguous initial block
of the remaining stream, per-event blocks in order. -/
theorem claim_C1_ordering (t : String) (evs : List EngineEvent) (crash : Bool)
    (sr : Option (Option StateSnapshot)) :
    (∃ tl, processStream t evs crash sr = WireEvent.metadata t :: tl ∧
      ∀ s, WireEvent.metadata s ∉ tl) ∧
    (∀ fs, WireEvent.complete fs ∈ processStream t evs crash sr →
      ∃ pre, processStream t evs crash sr = pre ++ [WireEvent.complete fs]) ∧
    terminalCount (processStream t evs crash sr) ≤ 1 ∧
    (∀ xs ys st, (∀ v, EngineEvent.interruptSig v ∉ xs) →
      processEvents st crash sr (xs ++ ys) =
        (mainChunks st xs).2 ++ processEvents (mainChunks st xs).1 crash sr ys) :=
  ⟨⟨processEvents ("", []) crash sr evs, rfl,
      fun s => metadata_not_mem_processEvents s _ _ _ _⟩,
    fun _ h => processStream_complete_last h,
    terminalCount_processStream t evs crash sr,
    fun xs ys st h => processEvents_append xs ys st crash sr h⟩

/-- Witness for C1 at a concrete input: the ordering decomposition applied to a
two-event engine stream with an interrupt-free prefix. -/
theorem claim_C1_ordering_witness :
    processEvents ("", []) false none
        ([EngineEvent.message MsgKind.aiPlain] ++ [EngineEvent.message MsgKind.toolMessage]) =
      (mainChunks ("", []) [EngineEvent.message MsgKind.aiPlain]).2 ++
        processEvents (mainChunks ("", []) [EngineEvent.message MsgKind.aiPlain]).1
          false none [EngineEvent.message MsgKind.toolMessage] :=
  (claim_C1_ordering "continue" [] false none).2.2.2
    [EngineEvent.message MsgKind.aiPlain] [EngineEvent.message MsgKind.toolMessage]
    ("", []) (fun v hv => by simp at hv)

/-- C2: when the engine stream ends without a suspend signal and without an
exception, the adapter emits a complete event if and only if the queried
durable state exists, has no pending task interrupt and no pending next
node; otherwise it emits nothing beyond the translated engine events. -/
theorem claim_C2_completion (t : String) (evs : List EngineEvent)
    (sr : Option (Option StateSnapshot))
    (hni : ∀ v, EngineEvent.interruptSig v ∉ evs) :
    ((∃ fs, WireEvent.complete fs ∈ processStream t evs false sr) ↔
      (∃ s, sr = some (some s) ∧ hasInterrupt s = false ∧ s.next = [])) ∧
    (¬(∃ s, sr = some (some s) ∧ hasInterrupt s = false ∧ s.next = []) →
      processStream t evs false sr =
        WireEvent.metadata t :: (mainChunks ("", []) evs).2) := by
  have hmain := @processEvents_no_crash_no_interrupt evs ("", []) sr hni
  constructor
  · constructor
    · intro ⟨fs, hfs⟩
      unfold processStream at hfs
      rw [hmain] at hfs
      rcases List.mem_cons.mp hfs with h1 | h1
      · exact absurd h1 (by simp)
      · rcases List.mem_append.mp h1 with h2 | h2
        · exact absurd rfl (body_not_complete (body_mainChunks evs _ _ h2) fs)
        · rcases completionCheck_shape sr with h3 | h3
          · rw [h3] at h2
            simp at h2
          · exact (completionCheck_eq_complete_iff sr).mp h3
    · intro hgood
      refine ⟨"completed", ?_⟩
      unfold processStream
      rw [hmain, (completionCheck_eq_complete_iff sr).mpr hgood]
      simp
  · intro hbad
    unfold processStream
    rw [hmain, (completionCheck_eq_nil_iff sr).mpr hbad]
    simp

/-- Witness for C2 at a concrete input: an engine run over a thread state with
no pending interrupts and no next node does produce a complete event. -/
theorem claim_C2_completion_witness :
    ∃ fs, WireEvent.complete fs ∈
      processStream "create" [] false (some (some ⟨[], []⟩)) :=
  (claim_C2_completion "create" [] (some (some ⟨[], []⟩))
    (fun v hv => by simp at hv)).1.mpr ⟨⟨[], []⟩, rfl, rfl, rfl⟩

/-- C3 counterexample: the fixed default option set emitted for an interrupt
value without explicit options has the values `accepted`, `edit_plan`,
`skip_research`, `reask`; `cancel` is not among them, contradicting the
claimed default set of accept-and-continue, edit-plan, skip-to-final and
cancel. -/
theorem claim_C3_counterexample :
    processStream "continue" [EngineEvent.interruptSig (InterruptValue.plain "review")]
        false none =
      [WireEvent.metadata "continue",
        WireEvent.interrupt "review" defaultInterruptOptions] ∧
    defaultInterruptOptions.map InterruptOption.value =
      ["accepted", "edit_plan", "skip_research", "reask"] ∧
    "cancel" ∉ defaultInterruptOptions.map InterruptOption.value :=
  ⟨rfl, rfl, by decide⟩

/-- C3 amended: engine-supplied `{label, value}` option pairs are passed through
verbatim; otherwise the interrupt event carries the fixed default option set
whose values are `accepted`, `edit_plan`, `skip_research`, `reask` (not
`cancel`). -/
theorem claim_C3_amended :
    (∀ (t : String) (msg : Option String) (opts : List InterruptOption)
        (rest : List EngineEvent) (crash : Bool) (sr : Option (Option StateSnapshot)),
      processStream t
          (EngineEvent.interruptSig (InterruptValue.withOptions msg opts) :: rest) crash sr =
        [WireEvent.metadata t,
          WireEvent.interrupt (msg.getD "Please Review the Plan.") opts]) ∧
    (∀ (t s : String) (rest : List EngineEvent) (crash : Bool)
        (sr : Option (Option StateSnapshot)),
      processStream t (EngineEvent.interruptSig (InterruptValue.plain s) :: rest) crash sr =
        [WireEvent.metadata t, WireEvent.interrupt s defaultInterruptOptions]) ∧
    defaultInterruptOptions.map InterruptOption.value =
      ["accepted", "edit_plan", "skip_research", "reask"] :=
  ⟨fun _ _ _ _ _ _ => rfl, fun _ _ _ _ _ => rfl, rfl⟩

/-- C4: the feedback path of `continue_research_stream` hands the engine a
`Command(resume=...)` input in place of a message; the resume string is
exactly `"[" + upper(f) + "]"`, extended by one space and the user message
when the message is non-empty after stripping, and by nothing otherwise. -/
theorem claim_C4_resume_token (f m : List Char) (evs : List EngineEvent) (crash : Bool)
    (sr : Option (Option StateSnapshot)) (sf : Bool) (hist : List StoredMessage) :
    (continueResearchStream ⟨m, some f⟩ evs crash sr sf hist).2 =
      [EngineInput.commandResume (buildResumeMsg f m)] ∧
    (pyStrip m ≠ [] → buildResumeMsg f m = '[' :: (pyUpper f ++ ']' :: ' ' :: m)) ∧
    (pyStrip m = [] → buildResumeMsg f m = '[' :: (pyUpper f ++ [']'])) := by
  refine ⟨rfl, ?_, ?_⟩
  · intro hstrip
    have hm : m ≠ [] := by
      intro hc
      subst hc
      exact hstrip rfl
    unfold buildResumeMsg
    rw [if_pos ⟨hm, hstrip⟩]
    simp
  · intro hstrip
    unfold buildResumeMsg
    rw [if_neg (fun hc => hc.2 hstrip)]

/-- Witness for C4 at a concrete input. -/
theorem claim_C4_resume_token_witness :
    buildResumeMsg (("accepted").toList) (("looks good").toList) =
      '[' :: (pyUpper (("accepted").toList) ++ ']' :: ' ' :: ("looks good").toList) :=
  (claim_C4_resume_token (("accepted").toList) (("looks good").toList) [] false none
    true []).2.1 (by decide)

/-- C5 counterexample: monitoring a session whose thread state still has a
pending next node yields a stream that ends with a complete event (with
`final_status="task_running"`), contradicting the claim that such a stream
contains no complete event. -/
theorem claim_C5_counterexample :
    (continueResearchStream ⟨[], none⟩ [] false
        (some (some ⟨[], ["researcher"]⟩)) true [⟨"hello", none⟩]).1 =
      [WireEvent.metadata "monitor",
        WireEvent.messageChunk "history" "assistant",
        WireEvent.progress "researcher" [] ["researcher"] "任务正在后台运行中...",
        WireEvent.complete "task_running"] ∧
    WireEvent.complete "task_running" ∈
      (continueResearchStream ⟨[], none⟩ [] false
        (some (some ⟨[], ["researcher"]⟩)) true [⟨"hello", none⟩]).1 ∧
    (StateSnapshot.mk [] ["researcher"]).next ≠ [] := by
  refine ⟨rfl, ?_, by decide⟩
  rw [show (continueResearchStream ⟨[], none⟩ [] false
      (some (some ⟨[], ["researcher"]⟩)) true [⟨"hello", none⟩]).1 =
    [WireEvent.metadata "monitor",
      WireEvent.messageChunk "history" "assistant",
      WireEvent.progress "researcher" [] ["researcher"] "任务正在后台运行中...",
      WireEvent.complete "task_running"] from rfl]
  simp

/-- C5 amended: monitoring a session (empty message, no feedback) while the
engine's thread state has a pending next step emits the monitoring metadata
event, the historical message chunks, a still-running progress event, and
then a final complete event with `final_status="task_running"`; the engine
is not re-invoked. -/
theorem claim_C5_amended (m : List Char) (hist : List StoredMessage) (s : StateSnapshot)
    (evs : List EngineEvent) (crash : Bool)
    (hm : pyStrip m = []) (hrun : s.next ≠ []) :
    (continueResearchStream ⟨m, none⟩ evs crash (some (some s)) true hist).1 =
      WireEvent.metadata "monitor" ::
        (hist.map monitorChunk ++
          [WireEvent.progress (s.next.headD "unknown") [] s.next "任务正在后台运行中...",
            WireEvent.complete "task_running"]) ∧
    (continueResearchStream ⟨m, none⟩ evs crash (some (some s)) true hist).2 = [] := by
  have hcond : ¬(m ≠ [] ∧ pyStrip m ≠ []) := fun hc => hc.2 hm
  have hrunb : isRunning (some (some s)) = true := by
    unfold isRunning
    simpa using hrun
  have hpair : continueResearchStream ⟨m, none⟩ evs crash (some (some s)) true hist =
      (monitorStream true (some (some s)) hist, []) := by
    show (if m ≠ [] ∧ pyStrip m ≠ [] then _ else _) = _
    rw [if_neg hcond]
  rw [hpair]
  refine ⟨?_, rfl⟩
  unfold monitorStream
  rw [if_neg (by simp : ¬(true = false))]
  rw [hrunb]
  simp [nextNodes]

/-- Witness for C5 amended at a concrete input. -/
theorem claim_C5_amended_witness :
    (continueResearchStream ⟨[], none⟩ [] false
        (some (some ⟨[false], ["reporter"]⟩)) true []).1 =
      WireEvent.metadata "monitor" ::
        (([] : List StoredMessage).map monitorChunk ++
          [WireEvent.progress ((["reporter"] : List String).headD "unknown") []
              ["reporter"] "任务正在后台运行中...",
            WireEvent.complete "task_running"]) ∧
    (continueResearchStream ⟨[], none⟩ [] false
        (some (some ⟨[false], ["reporter"]⟩)) true []).2 = [] :=
  claim_C5_amended [] [] ⟨[false], ["reporter"]⟩ [] false (by decide) (by decide)

theorem toUpper_toUpper (c : Char) : c.toUpper.toUpper = c.toUpper := by
  have hd : c.toUpper =
      if c.toNat ≥ 97 ∧ c.toNat ≤ 122 then Char.ofNat (c.toNat - 32) else c := rfl
  by_cases h : c.toNat ≥ 97 ∧ c.toNat ≤ 122
  · have hv : (c.toNat - 32).isValidChar := by
      left
      omega
    have ht := char_toNat_ofNat hv
    conv_lhs => rw [hd, if_pos h]
    conv_rhs => rw [hd, if_pos h]
    have hd2 : (Char.ofNat (c.toNat - 32)).toUpper =
        if (Char.ofNat (c.toNat - 32)).toNat ≥ 97 ∧ (Char.ofNat (c.toNat - 32)).toNat ≤ 122
        then Char.ofNat ((Char.ofNat (c.toNat - 32)).toNat - 32)
        else Char.ofNat (c.toNat - 32) := rfl
    rw [hd2, if_neg]
    rw [ht]
    intro hc
    omega
  · conv_lhs => rw [hd, if_neg h]

theorem pyUpper_pyUpper (l : List Char) : pyUpper (pyUpper l) = pyUpper l := by
  unfold pyUpper
  rw [List.map_map]
  exact List.map_congr_left (fun c _ => toUpper_toUpper c)

theorem bracket_isPre :
    ∀ (W U tail : List Char), ']' ∉ W → ']' ∉ U → W ≠ U →
      (W ++ [']']).isPrefixOf (U ++ ']' :: tail) = false
  | [], [], _, _, _, hne => absurd rfl hne
  | [], b :: U', _, _, hU, _ => by
    show ([']']).isPrefixOf (b :: (U' ++ ']' :: _)) = false
    have hb : (']' == b) = false := by
      simp only [beq_eq_false_iff_ne, ne_eq]
      intro hc
      exact hU (hc ▸ List.mem_cons_self b U')
    simp [List.isPrefixOf, hb]
  | a :: W', [], tail, hW, _, _ => by
    show ((a :: (W' ++ [']'])).isPrefixOf (']' :: tail)) = false
    have ha : (a == ']') = false := by
      simp only [beq_eq_false_iff_ne, ne_eq]
      intro hc
      exact hW (hc ▸ List.mem_cons_self a W')
    simp [List.isPrefixOf, ha]
  | a :: W', b :: U', tail, hW, hU, hne => by
    show ((a :: (W' ++ [']'])).isPrefixOf (b :: (U' ++ ']' :: tail))) = false
    by_cases hab : a = b
    · subst hab
      have hW' : ']' ∉ W' := fun h => hW (List.mem_cons_of_mem _ h)
      have hU' : ']' ∉ U' := fun h => hU (List.mem_cons_of_mem _ h)
      have hne' : W' ≠ U' := fun h => hne (by rw [h])
      have hrec := bracket_isPre W' U' tail hW' hU' hne'
      simp [List.isPrefixOf, hrec]
    · simp [List.isPrefixOf, hab]

theorem pyUpper_resume_token (f m : List Char) :
    ∃ tail, pyUpper (buildResumeMsg f m) = '[' :: (pyUpper f ++ ']' :: tail) := by
  unfold buildResumeMsg
  split
  · refine ⟨' ' :: pyUpper m, ?_⟩
    show pyUpper (('[' :: (pyUpper f ++ [']'])) ++ ' ' :: m) = _
    unfold pyUpper
    simp only [List.map_append, List.map_cons]
    rw [show List.map Char.toUpper (List.map Char.toUpper f) = List.map Char.toUpper f
      from pyUpper_pyUpper f]
    rw [show '['.toUpper = '[' from rfl, show ']'.toUpper = ']' from rfl,
      show ' '.toUpper = ' ' from rfl]
    simp
  · refine ⟨[], ?_⟩
    show pyUpper ('[' :: (pyUpper f ++ [']'])) = _
    unfold pyUpper
    simp only [List.map_append, List.map_cons]
    rw [show List.map Char.toUpper (List.map Char.toUpper f) = List.map Char.toUpper f
      from pyUpper_pyUpper f]
    rw [show '['.toUpper = '[' from rfl, show ']'.toUpper = ']' from rfl]
    simp

theorem lower_resume_token_head (f m : List Char) :
    ∃ rest, pyLower (buildResumeMsg f m) = '[' :: rest := by
  unfold buildResumeMsg
  split
  · exact ⟨_, rfl⟩
  · exact ⟨_, rfl⟩

theorem routeFeedback_unknown {f m : List Char} (hbr : ']' ∉ pyUpper f)
    (hne : pyUpper f ∉ [("EDIT_PLAN").toList, ("ACCEPTED").toList,
      ("SKIP_RESEARCH").toList, ("CANCEL").toList, ("REASK").toList]) :
    routeFeedback (buildResumeMsg f m) = FeedbackRoute.unsupportedFeedback := by
  obtain ⟨tail, hup⟩ := pyUpper_resume_token f m
  obtain ⟨rest, hlow⟩ := lower_resume_token_head f m
  simp only [List.mem_cons, List.mem_singleton] at hne
  push_neg at hne
  obtain ⟨hne1, hne2, hne3, hne4, hne5⟩ := hne
  have hsw : ∀ W : List Char, ']' ∉ W → pyUpper f ≠ W →
      startsWith (pyUpper (buildResumeMsg f m)) ('[' :: (W ++ [']'])) = false := by
    intro W hW hWne
    unfold startsWith
    rw [hup]
    show ((('[' : Char) == '[') && (W ++ [']']).isPrefixOf (pyUpper f ++ ']' :: tail)) = false
    rw [bracket_isPre W (pyUpper f) tail hW hbr (fun h => hWne h.symm)]
    simp
  have hlowne : ∀ W : List Char, '[' ∉ W → pyLower (buildResumeMsg f m) ≠ W := by
    intro W hW hc
    rw [hlow] at hc
    subst hc
    exact hW (List.mem_cons_self _ _)
  unfold routeFeedback
  rw [if_neg, if_neg, if_neg, if_neg, if_neg]
  · intro ⟨_, hx⟩
    rcases hx with hx | hx
    · rw [show (("[REASK]").toList) = '[' :: (("REASK").toList ++ [']']) from rfl] at hx
      rw [hsw (("REASK").toList) (by decide) hne5.1] at hx
      exact Bool.false_ne_true hx
    · exact hlowne (("reask").toList) (by decide) hx
  · intro ⟨_, hx⟩
    rcases hx with hx | hx
    · rw [show (("[CANCEL]").toList) = '[' :: (("CANCEL").toList ++ [']']) from rfl] at hx
      rw [hsw (("CANCEL").toList) (by decide) hne4] at hx
      exact Bool.false_ne_true hx
    · exact hlowne (("cancel").toList) (by decide) hx
  · intro ⟨_, hx⟩
    rcases hx with hx | hx
    · rw [show (("[SKIP_RESEARCH]").toList) =
        '[' :: (("SKIP_RESEARCH").toList ++ [']']) from rfl] at hx
      rw [hsw (("SKIP_RESEARCH").toList) (by decide) hne3] at hx
      exact Bool.false_ne_true hx
    · exact hlowne (("skip_research").toList) (by decide) hx
  · intro ⟨_, hx⟩
    rw [show (("[ACCEPTED]").toList) = '[' :: (("ACCEPTED").toList ++ [']']) from rfl] at hx
    rw [hsw (("ACCEPTED").toList) (by decide) hne2] at hx
    exact Bool.false_ne_true hx
  · intro ⟨_, hx⟩
    rw [show (("[EDIT_PLAN]").toList) = '[' :: (("EDIT_PLAN").toList ++ [']']) from rfl] at hx
    rw [hsw (("EDIT_PLAN").toList) (by decide) hne1] at hx
    exact Bool.false_ne_true hx

/-- C6 counterexample: a feedback value that is not in the offered option set is
not rejected before the engine is invoked; the adapter builds the resume
token `[BOGUS]` and invokes the engine with it, and it is the engine-side
`human_feedback_node` that fails with its unsupported-feedback `TypeError`. -/
theorem claim_C6_counterexample :
    ("bogus" ∉ humanFeedbackOptions.map InterruptOption.value) ∧
    (continueResearchStream ⟨[], some (("bogus").toList)⟩ [] false none true []).2 =
      [EngineInput.commandResume (("[BOGUS]").toList)] ∧
    routeFeedback (("[BOGUS]").toList) = FeedbackRoute.unsupportedFeedback := by
  refine ⟨by decide, ?_, by decide⟩
  show [EngineInput.commandResume (buildResumeMsg (("bogus").toList) [])] = _
  decide

/-- C6 amended: `continue_research_stream` performs no validation of the
feedback value against the offered option set: for every feedback value
(bracket-free and distinct from the engine-known values), the engine is
invoked with the resume token built from it, and the engine's
`human_feedback_node` raises its unsupported-feedback error on that token. -/
theorem claim_C6_amended (f m : List Char) (evs : List EngineEvent) (crash : Bool)
    (sr : Option (Option StateSnapshot)) (sf : Bool) (hist : List StoredMessage)
    (hbr : ']' ∉ pyUpper f)
    (hne : pyUpper f ∉ [("EDIT_PLAN").toList, ("ACCEPTED").toList,
      ("SKIP_RESEARCH").toList, ("CANCEL").toList, ("REASK").toList]) :
    (continueResearchStream ⟨m, some f⟩ evs crash sr sf hist).2 =
      [EngineInput.commandResume (buildResumeMsg f m)] ∧
    routeFeedback (buildResumeMsg f m) = FeedbackRoute.unsupportedFeedback :=
  ⟨rfl, routeFeedback_unknown hbr hne⟩

/-- Witness for C6 amended at a concrete input. -/
theorem claim_C6_amended_witness :
    (continueResearchStream ⟨[], some (("try again").toList)⟩ [] false none true []).2 =
      [EngineInput.commandResume (buildResumeMsg (("try again").toList) [])] ∧
    routeFeedback (buildResumeMsg (("try again").toList) []) =
      FeedbackRoute.unsupportedFeedback :=
  claim_C6_amended (("try again").toList) [] [] false none true [] (by decide) (by decide)

theorem nav_not_mem_processStream (t : String) (evs : List EngineEvent) (crash : Bool)
    (sr : Option (Option StateSnapshot)) :
    WireEvent.navigation ∉ processStream t evs crash sr := by
  intro h
  rcases List.mem_cons.mp h with h1 | h1
  · exact absurd h1 (by simp)
  · exact navigation_not_mem_processEvents _ _ _ _ h1

theorem nav_not_mem_monitorStream (sf : Bool) (sr : Option (Option StateSnapshot))
    (hist : List StoredMessage) :
    WireEvent.navigation ∉ monitorStream sf sr hist := by
  intro h
  unfold monitorStream at h
  rcases List.mem_cons.mp h with h1 | h1
  · exact absurd h1 (by simp)
  · split at h1
    · simp at h1
    · rcases List.mem_append.mp h1 with h2 | h2
      · rcases List.mem_append.mp h2 with h3 | h3
        · obtain ⟨msg, _, hmsg⟩ := List.mem_map.mp h3
          exact absurd hmsg.symm (by simp [monitorChunk])
        · split at h3
          · simp at h3
          · simp at h3
      · simp at h2

theorem nav_not_mem_continueStream (req : ContinueRequest) (evs : List EngineEvent)
    (crash : Bool) (sr : Option (Option StateSnapshot)) (sf : Bool)
    (hist : List StoredMessage) :
    WireEvent.navigation ∉ (continueResearchStream req evs crash sr sf hist).1 := by
  unfold continueResearchStream
  rcases req with ⟨m, _ | f⟩
  · by_cases hc : m ≠ [] ∧ pyStrip m ≠ []
    · rw [if_pos hc]
      exact nav_not_mem_processStream _ _ _ _
    · rw [if_neg hc]
      exact nav_not_mem_monitorStream _ _ _
  · exact nav_not_mem_processStream _ _ _ _

theorem nav_not_mem_createStream (setupOk : Bool) (evs : List EngineEvent) (crash : Bool)
    (sr : Option (Option StateSnapshot)) :
    WireEvent.navigation ∉ createResearchStream setupOk evs crash sr := by
  unfold createResearchStream
  split
  · exact nav_not_mem_processStream _ _ _ _
  · simp

/-- C7 counterexample: a followup/feedback ask stream does contain a navigation
event (as its first event), contradicting the claim that only `create`
streams carry one. -/
theorem claim_C7_counterexample :
    handleStreamAsk true
        ((continueResearchStream ⟨[], some (("accepted").toList)⟩ [] false none true []).1) =
      [WireEvent.navigation, WireEvent.metadata "feedback"] ∧
    WireEvent.navigation ∈ handleStreamAsk true
        ((continueResearchStream ⟨[], some (("accepted").toList)⟩ [] false none true []).1) := by
  refine ⟨rfl, ?_⟩
  rw [show handleStreamAsk true
      ((continueResearchStream ⟨[], some (("accepted").toList)⟩ [] false none true []).1) =
    [WireEvent.navigation, WireEvent.metadata "feedback"] from rfl]
  simp

/-- C7 amended: `_handle_stream_ask` emits a navigation event exactly once per
stream, as the first event (hence before the metadata event), for initial
and followup/feedback asks alike; the streams produced by
`continue_research_stream` itself (including monitoring) contain none. -/
theorem claim_C7_amended :
    (∀ (setupOk : Bool) (evs : List EngineEvent) (crash : Bool)
        (sr : Option (Option StateSnapshot)),
      (handleStreamAsk true (createResearchStream setupOk evs crash sr)).head? =
          some WireEvent.navigation ∧
      List.count WireEvent.navigation
          (handleStreamAsk true (createResearchStream setupOk evs crash sr)) = 1) ∧
    (∀ (req : ContinueRequest) (evs : List EngineEvent) (crash : Bool)
        (sr : Option (Option StateSnapshot)) (sf : Bool) (hist : List StoredMessage),
      (handleStreamAsk true ((continueResearchStream req evs crash sr sf hist).1)).head? =
          some WireEvent.navigation ∧
      List.count WireEvent.navigation
          (handleStreamAsk true ((continueResearchStream req evs crash sr sf hist).1)) = 1) ∧
    (∀ (req : ContinueRequest) (evs : List EngineEvent) (crash : Bool)
        (sr : Option (Option StateSnapshot)) (sf : Bool) (hist : List StoredMessage),
      WireEvent.navigation ∉ (continueResearchStream req evs crash sr sf hist).1) := by
  refine ⟨?_, ?_, nav_not_mem_continueStream⟩
  · intro setupOk evs crash sr
    refine ⟨rfl, ?_⟩
    show List.count WireEvent.navigation
      (WireEvent.navigation :: createResearchStream setupOk evs crash sr) = 1
    rw [List.count_cons_self,
      List.count_eq_zero.mpr (nav_not_mem_createStream setupOk evs crash sr)]
  · intro req evs crash sr sf hist
    refine ⟨rfl, ?_⟩
    show List.count WireEvent.navigation
      (WireEvent.navigation :: (continueResearchStream req evs crash sr sf hist).1) = 1
    rw [List.count_cons_self,
      List.count_eq_zero.mpr (nav_not_mem_continueStream req evs crash sr sf hist)]

/-- C8 counterexample: the random-suffix alphabet contains upper-case letters
(only `0`, `O`, `l`, `I` are removed), so a generated slug can contain
upper-case characters and fail the claimed `[a-z0-9-]+` pattern. -/
theorem claim_C8_counterexample :
    SuffixOk (("AAAAAAAA").toList) ∧
    generate_url_param (("hi").toList) [("hi").toList] (fun _ => [])
        (("AAAAAAAA").toList) (("AAAAAAAA").toList) 50 = ("hi-AAAAAAAA").toList ∧
    ("hi-AAAAAAAA").toList.all lowerAlnumHyphen = false := by
  refine ⟨by decide, by decide, by decide⟩

/-- C8 amended: every generated slug has length at most 50, matches
`[a-zA-Z0-9-]+` (the suffix alphabet includes upper-case letters), and has
no leading, trailing or doubled hyphen. -/
theorem claim_C8_amended (question : List Char) (keywords : List (List Char))
    (pin : List Char → List (List Char)) (sfx sfx0 : List Char)
    (hs : SuffixOk sfx) (hs0 : SuffixOk sfx0) :
    (generate_url_param question keywords pin sfx sfx0 50).length ≤ 50 ∧
    (∀ c ∈ generate_url_param question keywords pin sfx sfx0 50, alnumHyphen c = true) ∧
    (∀ c, (generate_url_param question keywords pin sfx sfx0 50).head? = some c →
      c ≠ '-') ∧
    (∀ c, (generate_url_param question keywords pin sfx sfx0 50).getLast? = some c →
      c ≠ '-') ∧
    hasDoubleHyphen (generate_url_param question keywords pin sfx sfx0 50) = false := by
  obtain ⟨_, h50, hchars, hhead, hlast, hdbl⟩ :=
    goodSlug_generate question keywords pin hs hs0
  exact ⟨h50, hchars, hhead, hlast, hdbl⟩

/-- Witness for C8 amended at a concrete input. -/
theorem claim_C8_amended_witness :
    (generate_url_param (("learn lean").toList) [("learn").toList, ("lean").toList]
        (fun _ => []) (("Abc23456").toList) (("Abc23456").toList) 50).length ≤ 50 :=
  (claim_C8_amended (("learn lean").toList) [("learn").toList, ("lean").toList]
    (fun _ => []) (("Abc23456").toList) (("Abc23456").toList) (by decide) (by decide)).1

/-- C9: every slug the generator returns is accepted by the validator. -/
theorem claim_C9_roundtrip (question : List Char) (keywords : List (List Char))
    (pin : List Char → List (List Char)) (sfx sfx0 : List Char)
    (hs : SuffixOk sfx) (hs0 : SuffixOk sfx0) :
    validate_url_param (generate_url_param question keywords pin sfx sfx0 50) = true :=
  validate_of_goodSlug (goodSlug_generate question keywords pin hs hs0)

/-- Witness for C9 at a concrete input. -/
theorem claim_C9_roundtrip_witness :
    validate_url_param (generate_url_param (("量子").toList) [("量子").toList]
      (fun _ => [("liang").toList, ("zi").toList]) (("x2y3z4w5").toList)
      (("x2y3z4w5").toList) 50) = true :=
  claim_C9_roundtrip (("量子").toList) [("量子").toList]
    (fun _ => [("liang").toList, ("zi").toList]) (("x2y3z4w5").toList)
    (("x2y3z4w5").toList) (by decide) (by decide)

/-- C10: in `_parse_config` a field supplied with any falsy value is
indistinguishable from an omitted field and falls back to the default; in
particular `enable_background_investigation` set to `false` (nested, flat,
or both, the other position absent or false) parses to `true`. -/
theorem claim_C10_falsy_config :
    (∀ v1 v2 d, truthy v1 = false → truthy v2 = false → parseField v1 v2 d = d) ∧
    (∀ cfg : ConfigDict,
      (parse_config_research cfg).enable_background_investigation =
        parseField (cfg.research "enable_background_investigation")
          (cfg.flat "enable_background_investigation") (PyVal.bool true)) ∧
    (∀ n fl : PyVal,
      (n = PyVal.bool false ∨ n = PyVal.none) →
      (fl = PyVal.bool false ∨ fl = PyVal.none) →
      (n = PyVal.bool false ∨ fl = PyVal.bool false) →
      parseField n fl (PyVal.bool true) = PyVal.bool true) := by
  refine ⟨?_, fun _ => rfl, ?_⟩
  · intro v1 v2 d h1 h2
    unfold parseField pyOr
    simp [h1, h2]
  · intro n fl hn hfl _
    rcases hn with rfl | rfl <;> rcases hfl with rfl | rfl <;> rfl

/-- Witness for C10 at a concrete input: a config dict with
`enable_background_investigation: false` in both the nested and the flat
position parses the field back to `true`. -/
theorem claim_C10_falsy_config_witness :
    (parse_config_research
      ⟨fun k => if k = "enable_background_investigation" then PyVal.bool false
          else PyVal.none,
        fun k => if k = "enable_background_investigation" then PyVal.bool false
          else PyVal.none⟩).enable_background_investigation = PyVal.bool true := by
  rw [claim_C10_falsy_config.2.1]
  exact claim_C10_falsy_config.2.2 _ _ (Or.inl (by decide)) (Or.inl (by decide))
    (Or.inl (by decide))

end YADRA

